import Mathlib

/-!
# Verification of the `csv_profiler` profiling core

Shallow embedding of `src/csv_profiler/profiling.py` :
`is_missing`, `try_float`, `infer_type`, `numeric_stats`, `text_stats`,
`detect_quality_issues` and `profile_rows`, with theorems settling the
spec claims about them.

Modelling conventions:
* Python floats are modelled as exact rationals (`ℚ`).  `float(...)`
  parsing follows the literal grammar of Python's `float` constructor
  (optional sign, digits with single underscores between digits,
  optional fractional part, optional exponent); the special literals
  `inf`/`infinity`/`nan` and IEEE rounding/overflow lie outside the
  rational model and are not represented (`nan` is a missing token and
  never reaches the parser in the pipeline).
* Python's insertion-ordered `dict`/`Counter` tallies are modelled by
  an order-preserving tally over the list of first occurrences.
* `round(x, 1)` and the `:.1f` / `:.2f` format specifiers round half
  to even, as Python does.
* Python's `sorted` is a stable sort; it is modelled by
  `List.insertionSort`, which is also stable.  A stable sort's output
  is uniquely determined by its input and a total transitive
  comparison, so the two functions agree on every input.
* The standard deviation `std = sqrt(variance)` is irrational in
  general; profiles store the exact `variance` and the source's
  comparisons on `std` are translated to the equivalent comparisons on
  `variance` (both sides are nonnegative, so squaring is faithful).
-/

/-- Inferred column type: the source uses the strings `"number"` and `"text"`. -/
inductive ColType where
  | number
  | text
deriving DecidableEq, Repr

/-- Quality-issue level: the source uses the strings `"warning"` and `"info"`. -/
inductive Level where
  | warning
  | info
deriving DecidableEq, Repr

/-- `str.strip()` on the underlying characters: drop whitespace from
both ends. -/
def pyStrip (cs : List Char) : List Char :=
  ((cs.dropWhile Char.isWhitespace).reverse.dropWhile Char.isWhitespace).reverse

/-- `value.strip().lower()` (ASCII fragment: `str.strip`/`str.lower`
also handle non-ASCII whitespace and letters, which the fixed missing
tokens never contain). -/
def stripLower (v : String) : String :=
  String.mk ((pyStrip v.data).map Char.toLower)

/--
`is_missing` from `profiling.py`: `None`, or — after stripping
whitespace and lower-casing — the empty string or one of the tokens
`na`, `n/a`, `null`, `none`, `nan`.
-/
def is_missing (value : Option String) : Bool :=
  match value with
  | none => true
  | some v =>
    let value_stripped := stripLower v
    if value_stripped = "" then true
    else if value_stripped ∈ ["na", "n/a", "null", "none", "nan"] then true
    else false

/-- Variant of `is_missing` for cells that are always strings (the
pipeline extracts raw string values, absent keys becoming `""`). -/
def is_missing_str (v : String) : Bool := is_missing (some v)

/-! ## The numeric literal parser (`try_float` / Python `float(str)`)

`float(s)` strips surrounding whitespace, then accepts
`[sign] (digitpart [. [digitpart]] | . digitpart) [e [sign] digitpart]`
where a `digitpart` is digits with single underscores allowed between
digits.  The value is returned exactly as a rational. -/

/-- Consume further digits of a digit part that already has at least one
digit: digits accumulate into `acc`, `k` counts digits, and a single
underscore is allowed only between two digits.  Returns the accumulated
value, the digit count, and the unconsumed remainder. -/
def digitsLoop (acc k : Nat) : List Char → Nat × Nat × List Char
  | [] => (acc, k, [])
  | c :: cs =>
    if c.isDigit then
      digitsLoop (10 * acc + (c.toNat - 48)) (k + 1) cs
    else if c = '_' then
      match cs with
      | d :: cs' =>
        if d.isDigit then digitsLoop (10 * acc + (d.toNat - 48)) (k + 1) cs'
        else (acc, k, c :: cs)
      | [] => (acc, k, c :: cs)
    else (acc, k, c :: cs)

/-- Read a digit part (leading digit required). -/
def readDigits : List Char → Option (Nat × Nat × List Char)
  | [] => none
  | c :: cs =>
    if c.isDigit then some (digitsLoop (c.toNat - 48) 1 cs) else none

/-- Parse the optional exponent suffix and apply it to the mantissa;
everything must be consumed. -/
def applyExp (q : ℚ) : List Char → Option ℚ
  | [] => some q
  | c :: cs =>
    if c = 'e' ∨ c = 'E' then
      let signAndRest : Bool × List Char :=
        match cs with
        | '+' :: t => (false, t)
        | '-' :: t => (true, t)
        | t => (false, t)
      match readDigits signAndRest.2 with
      | some (e, _, rest) =>
        if rest = [] then
          some (if signAndRest.1 then q / 10 ^ e else q * 10 ^ e)
        else none
      | none => none
    else none

/-- Parse the mantissa: `digitpart [. [digitpart]]` or `. digitpart`. -/
def parseMantissa : List Char → Option (ℚ × List Char)
  | '.' :: cs =>
    (readDigits cs).map (fun p => ((p.1 : ℚ) / 10 ^ p.2.1, p.2.2))
  | cs =>
    match readDigits cs with
    | some (ip, _, rest) =>
      match rest with
      | '.' :: rest2 =>
        match readDigits rest2 with
        | some (f, k, rest3) => some ((ip : ℚ) + (f : ℚ) / 10 ^ k, rest3)
        | none => some ((ip : ℚ), rest2)
      | _ => some ((ip : ℚ), rest)
    | none => none

/-- Parse a full (already whitespace-stripped) float literal. -/
def pyParse (cs : List Char) : Option ℚ :=
  let signAndRest : Bool × List Char :=
    match cs with
    | '+' :: t => (false, t)
    | '-' :: t => (true, t)
    | t => (false, t)
  match parseMantissa signAndRest.2 with
  | some (m, rest) =>
    match applyExp m rest with
    | some q => some (if signAndRest.1 then -q else q)
    | none => none
  | none => none

/-- `try_float` from `profiling.py`: `float(value)` on success, `None`
on failure (here: the exact rational value of the literal). -/
def try_float (s : String) : Option ℚ :=
  pyParse (pyStrip s.data)

/-- The non-missing (present) values of a column:
`[v for v in values if not is_missing(v)]`. -/
def present_values (values : List String) : List String :=
  values.filter (fun v => ¬ is_missing_str v)

/-- The `floats` local of `numeric_stats`: parse the present values,
discarding any that fail to parse. -/
def parsed_floats (values : List String) : List ℚ :=
  (present_values values).filterMap try_float

/--
`infer_type` from `profiling.py`: `"text"` when no non-missing value
exists, otherwise `"number"` iff every non-missing value parses as a
float.
-/
def infer_type (values : List String) : ColType :=
  let non_missing := present_values values
  if non_missing.isEmpty then ColType.text
  else if non_missing.all (fun v => (try_float v).isSome) then ColType.number
  else ColType.text

/-! ## Order-preserving tallies (Python `dict` / `Counter` insertion order) -/

/-- The distinct elements of `l` in order of first appearance (the
iteration order of a Python `dict`/`Counter` built by insertion). -/
def firstSeen {α : Type} [DecidableEq α] : List α → List α
  | [] => []
  | v :: t => v :: (firstSeen t).filter (fun w => w ≠ v)

/-- Order-preserving tally: each distinct element of `l`, in order of
first appearance, paired with its number of occurrences. -/
def ordered_tally {α : Type} [DecidableEq α] (l : List α) : List (α × Nat) :=
  (firstSeen l).map (fun v => (v, l.count v))

/-- `max(freq_map.values())` over the tally of `l` (0 for the empty list,
which the source never queries). -/
def max_freq {α : Type} [DecidableEq α] (l : List α) : Nat :=
  ((ordered_tally l).map Prod.snd).foldr max 0

/-- The mode computation of `numeric_stats`: the unique value of
strictly highest frequency, or `none` on a tie for the highest. -/
def numeric_mode (floats : List ℚ) : Option ℚ :=
  let modes := (ordered_tally floats).filter (fun p => p.2 = max_freq floats)
  match modes with
  | [m] => some m.1
  | _ => none

/-- Python `round(q, 1)` and the `:.1f` specifier round half to even;
this is the integer round-half-even. -/
def round_half_even (q : ℚ) : ℤ :=
  let f := ⌊q⌋
  if q - f < 1 / 2 then f
  else if q - f > 1 / 2 then f + 1
  else if f % 2 = 0 then f else f + 1

/-- `round(q, 1)` from Python, exactly on rationals. -/
def round1 (q : ℚ) : ℚ :=
  (round_half_even (10 * q) : ℚ) / 10

/-- `missing_pct = round(missing/total*100, 1) if total > 0 else 0.0`. -/
def missing_pct_of (missing total : Nat) : ℚ :=
  if total > 0 then round1 ((missing : ℚ) / (total : ℚ) * 100) else 0

/-! ## Quality issues -/

/--
The message of a quality issue, as a constructor carrying the values
the source interpolates into the corresponding f-string; `render`
below produces the string itself.
-/
inductive IssueMsg where
  | highMissing (pct : ℚ)
  | moderateMissing (pct : ℚ)
  | lowCardinality (uniqueCount nRows : Nat)
  | allUnique
  | outliers (lower upper : ℚ)
  | highVariability (variance mean : ℚ)
  | dominantValue (value : String) (pct : ℚ)
deriving DecidableEq, Repr

/-- A quality issue: a level (`warning`/`info`) and a message. -/
structure Issue where
  level : Level
  msg : IssueMsg
deriving DecidableEq, Repr

/-! ## Column profiles -/

/--
A column profile (the merged dictionary built by `profile_rows`).
Numeric statistics are `Option`-valued: `none` is the source's `None` /
absent key.  `variance?` stores the exact variance; the source's
`std = variance ** 0.5` is its (irrational) square root, and every
comparison the source makes on `std` is rendered as the equivalent
comparison on `variance`.
-/
structure ColProfile where
  name : String := ""
  type : ColType
  count : Nat
  missing : Nat
  missing_pct : ℚ
  unique : Nat
  min? : Option ℚ := none
  max? : Option ℚ := none
  mean? : Option ℚ := none
  median? : Option ℚ := none
  mode? : Option ℚ := none
  variance? : Option ℚ := none
  q1? : Option ℚ := none
  q3? : Option ℚ := none
  top : List (String × Nat) := []
  quality_issues : List Issue := []
deriving DecidableEq, Repr

/--
`numeric_stats` from `profiling.py` (the caller fills in `name`).
`unique` is `len(set(floats))`; statistics are computed on the parsed
values when any exist.
-/
def numeric_stats (values : List String) : ColProfile :=
  let total_count := values.length
  let missing_count := values.countP (fun v => is_missing_str v)
  let non_missing_count := total_count - missing_count
  let floats := parsed_floats values
  let unique_count := (firstSeen floats).length
  if floats.isEmpty then
    { type := ColType.number, count := non_missing_count, missing := missing_count,
      missing_pct := missing_pct_of missing_count total_count, unique := unique_count }
  else
    let sorted_floats := floats.insertionSort (· ≤ ·)
    let n := sorted_floats.length
    let mean := floats.sum / (floats.length : ℚ)
    { type := ColType.number, count := non_missing_count, missing := missing_count,
      missing_pct := missing_pct_of missing_count total_count, unique := unique_count,
      min? := floats.min?,
      max? := floats.max?,
      mean? := some mean,
      median? := some (if n % 2 = 0
        then (sorted_floats.getD (n / 2 - 1) 0 + sorted_floats.getD (n / 2) 0) / 2
        else sorted_floats.getD (n / 2) 0),
      mode? := numeric_mode floats,
      variance? := some ((floats.map (fun x => (x - mean) ^ 2)).sum / (floats.length : ℚ)),
      q1? := if n ≥ 4 then some (sorted_floats.getD (n / 4) 0) else none,
      q3? := if n ≥ 4 then some (sorted_floats.getD (3 * n / 4) 0) else none }

/--
`text_stats` from `profiling.py` (the caller fills in `name`).
`Counter(...).most_common(top_k)` is the insertion-ordered tally sorted
by descending count with a stable sort, truncated to `top_k`.
-/
def text_stats (values : List String) (top_k : Nat := 5) : ColProfile :=
  let total_count := values.length
  let missing_count := values.countP (fun v => is_missing_str v)
  let non_missing_count := total_count - missing_count
  let non_missing_values := present_values values
  let unique_count := (firstSeen non_missing_values).length
  let counter := ordered_tally non_missing_values
  let top_items := (counter.insertionSort (fun a b => b.2 ≤ a.2)).take top_k
  { type := ColType.text, count := non_missing_count, missing := missing_count,
    missing_pct := missing_pct_of missing_count total_count, unique := unique_count,
    top := top_items }

/-! ## Quality-issue detection -/

/--
The numeric-only checks of `detect_quality_issues` (guarded in the
source by `type == 'number'` and `std is not None`).  The source reads
`q1`/`q3` through `.get` and then `min`/`max`/`mean` directly: in every
profile the pipeline produces, `min`, `max` and `mean` are present
whenever `std` is; matching on all of them keeps the function total.
`std / abs(mean) > 1` is rendered as `variance > mean ^ 2` (both sides
of the source's comparison are nonnegative, so squaring is exact).
-/
def outlier_issues (p : ColProfile) : List Issue :=
  match p.q1?, p.q3?, p.min?, p.max? with
  | some q1, some q3, some mn, some mx =>
    let iqr := q3 - q1
    let lower_bound := q1 - 1.5 * iqr
    let upper_bound := q3 + 1.5 * iqr
    if mn < lower_bound ∨ mx > upper_bound then
      [⟨Level.info, IssueMsg.outliers lower_bound upper_bound⟩]
    else []
  | _, _, _, _ => []

/-- The high-variability check: `std / abs(mean) > 1` with `mean ≠ 0`,
rendered on the stored variance. -/
def variability_issues (p : ColProfile) : List Issue :=
  match p.mean?, p.variance? with
  | some mean, some variance =>
    if mean ≠ 0 ∧ variance > mean ^ 2 then
      [⟨Level.info, IssueMsg.highVariability variance mean⟩]
    else []
  | _, _ => []

def numeric_issues (p : ColProfile) : List Issue :=
  outlier_issues p ++ variability_issues p

/--
The text-only check of `detect_quality_issues`: a single dominant value
covering more than 90% of the rows (the pipeline calls this with
`n_rows ≥ 1`).
-/
def text_issues (p : ColProfile) (n_rows : Nat) : List Issue :=
  match p.top with
  | (v, c) :: _ =>
    let top_pct := (c : ℚ) / (n_rows : ℚ) * 100
    if top_pct > 90 then [⟨Level.info, IssueMsg.dominantValue v top_pct⟩] else []
  | [] => []

/--
`detect_quality_issues` from `profiling.py`: the issue list is the
concatenation, in source order, of the missing-data check (warning
above 50%, info above 20%), the low-cardinality check, the
all-values-unique check, the numeric-only checks and the text-only
check.
-/
def detect_quality_issues (p : ColProfile) (n_rows : Nat) : List Issue :=
  (if p.missing_pct > 50 then
     [⟨Level.warning, IssueMsg.highMissing p.missing_pct⟩]
   else if p.missing_pct > 20 then
     [⟨Level.info, IssueMsg.moderateMissing p.missing_pct⟩]
   else [])
  ++ (if n_rows > 100 ∧ p.unique < 5 ∧ p.type ≠ ColType.text then
        [⟨Level.info, IssueMsg.lowCardinality p.unique n_rows⟩]
      else [])
  ++ (if p.unique = p.count ∧ p.count > 10 then
        [⟨Level.info, IssueMsg.allUnique⟩]
      else [])
  ++ (if p.type = ColType.number ∧ p.variance?.isSome then numeric_issues p else [])
  ++ (if p.type = ColType.text then text_issues p n_rows else [])

/-! ## Rendering issue messages -/

/-- Python's `:.1f` format specifier, exactly on rationals. -/
def fmt1 (q : ℚ) : String :=
  let t := round_half_even (10 * q)
  (if t < 0 then "-" else "") ++ toString (t.natAbs / 10) ++ "." ++ toString (t.natAbs % 10)

/-- Python's `:.2f` format specifier, exactly on rationals. -/
def fmt2 (q : ℚ) : String :=
  let t := round_half_even (100 * q)
  let frac := t.natAbs % 100
  (if t < 0 then "-" else "") ++ toString (t.natAbs / 100) ++ "."
    ++ (if frac < 10 then "0" else "") ++ toString frac

/-- The ASCII single-quote character used by the dominant-value message. -/
def singleQuote : String := (Char.ofNat 39).toString

/--
The f-strings of `detect_quality_issues`.  The high-variability message
interpolates `std = sqrt(variance)` and `mean` to two decimals in the
source; `sqrt` is irrational over ℚ, so those two numerals are elided
here (no verified claim concerns this message's text).
-/
def render : IssueMsg → String
  | IssueMsg.highMissing pct =>
      "High missing data: " ++ fmt1 pct ++ "% of values are missing"
  | IssueMsg.moderateMissing pct =>
      "Moderate missing data: " ++ fmt1 pct ++ "% of values are missing"
  | IssueMsg.lowCardinality u n =>
      "Low cardinality: Only " ++ toString u ++ " unique values in " ++ toString n ++ " rows"
  | IssueMsg.allUnique =>
      "All values are unique - this may be an identifier column"
  | IssueMsg.outliers lo hi =>
      "Potential outliers detected (values outside [" ++ fmt2 lo ++ ", " ++ fmt2 hi ++ "])"
  | IssueMsg.highVariability _ _ =>
      "High variability: Standard deviation is large relative to mean"
  | IssueMsg.dominantValue v pct =>
      "Single dominant value: " ++ singleQuote ++ v ++ singleQuote
        ++ " appears in " ++ fmt1 pct ++ "% of rows"

/-- Does a message report missing data (at either level)?  Used to
state the missing-data claims. -/
def IssueMsg.isMissingData : IssueMsg → Bool
  | IssueMsg.highMissing _ => true
  | IssueMsg.moderateMissing _ => true
  | _ => false

/-! ## The profile aggregator -/

/-- The final report: row count, column count, per-column profiles. -/
structure Report where
  n_rows : Nat
  n_cols : Nat
  columns : List ColProfile
deriving DecidableEq, Repr

/-- `row.get(col_name, "")`: a row is a mapping from column names to raw
string cells, modelled as an association list. -/
def rowGet (row : List (String × String)) (k : String) : String :=
  (row.lookup k).getD ""

/--
`profile_rows` from `profiling.py`: column names come from the first
row, values are extracted per column (absent keys becoming `""`), each
column is typed, profiled and annotated with its quality issues (an
empty `quality_issues` list models the omitted key).
-/
def profile_rows (rows : List (List (String × String))) : Report :=
  match rows with
  | [] => { n_rows := 0, n_cols := 0, columns := [] }
  | first :: _ =>
    let n_rows := rows.length
    let column_names := first.map Prod.fst
    let n_cols := column_names.length
    let columns_profile := column_names.map (fun col_name =>
      let values := rows.map (fun row => rowGet row col_name)
      let col_type := infer_type values
      let stats :=
        if col_type = ColType.number then numeric_stats values else text_stats values
      let col_profile := { stats with name := col_name, type := col_type }
      { col_profile with
          quality_issues := detect_quality_issues col_profile n_rows })
    { n_rows := n_rows, n_cols := n_cols, columns := columns_profile }

/-! ## Helper lemmas -/

theorem mem_firstSeen {α : Type} [DecidableEq α] (x : α) (l : List α) :
    x ∈ firstSeen l ↔ x ∈ l := by
  induction l with
  | nil => simp [firstSeen]
  | cons v t ih =>
    simp only [firstSeen, List.mem_cons, List.mem_filter, decide_eq_true_eq, ih]
    by_cases hx : x = v <;> simp [hx]

theorem nodup_firstSeen {α : Type} [DecidableEq α] (l : List α) :
    (firstSeen l).Nodup := by
  induction l with
  | nil => simp [firstSeen]
  | cons v t ih =>
    refine List.Nodup.cons ?_ (ih.filter _)
    intro h
    exact absurd (List.of_mem_filter h) (by simp)

theorem nodup_ordered_tally {α : Type} [DecidableEq α] (l : List α) :
    (ordered_tally l).Nodup :=
  (nodup_firstSeen l).map (fun _ _ h => congrArg Prod.fst h)

theorem le_foldr_max {a : Nat} {l : List Nat} (h : a ∈ l) : a ≤ l.foldr max 0 := by
  induction l with
  | nil => cases h
  | cons b t ih =>
    rcases List.mem_cons.mp h with rfl | h'
    · exact Nat.le_max_left _ _
    · exact le_trans (ih h') (Nat.le_max_right _ _)

theorem foldr_max_mem {l : List Nat} (h : l ≠ []) : l.foldr max 0 ∈ l := by
  induction l with
  | nil => exact absurd rfl h
  | cons b t ih =>
    rcases eq_or_ne t [] with rfl | ht
    · simp
    · rcases max_choice b (t.foldr max 0) with hm | hm <;>
        simp only [List.foldr_cons, hm]
      · exact List.mem_cons_self _ _
      · exact List.mem_cons_of_mem _ (ih ht)

theorem count_le_max_freq {α : Type} [DecidableEq α] {v : α} {l : List α} (h : v ∈ l) :
    l.count v ≤ max_freq l := by
  apply le_foldr_max
  simp only [max_freq, ordered_tally, List.map_map]
  exact List.mem_map.mpr ⟨v, (mem_firstSeen v l).mpr h, rfl⟩

theorem max_freq_mem {α : Type} [DecidableEq α] {l : List α} (h : l ≠ []) :
    ∃ v ∈ l, l.count v = max_freq l := by
  have hfs : firstSeen l ≠ [] := by
    cases l with
    | nil => exact absurd rfl h
    | cons a t => simp [firstSeen]
  have hmem : max_freq l ∈ (ordered_tally l).map Prod.snd := by
    apply foldr_max_mem
    simp [ordered_tally, hfs]
  simp only [ordered_tally, List.map_map, List.mem_map] at hmem
  obtain ⟨v, hv, hcount⟩ := hmem
  exact ⟨v, (mem_firstSeen v l).mp hv, hcount⟩

theorem length_filterMap_of_all_some {α β : Type} {f : α → Option β} {l : List α}
    (h : ∀ x ∈ l, (f x).isSome) : (l.filterMap f).length = l.length := by
  induction l with
  | nil => simp
  | cons a t ih =>
    obtain ⟨b, hb⟩ := Option.isSome_iff_exists.mp (h a (List.mem_cons_self a t))
    rw [List.filterMap_cons, hb]
    simp [ih (fun x hx => h x (List.mem_cons_of_mem a hx))]

theorem nodup_all_eq_singleton {α : Type} {l : List α} {x : α} (hn : l.Nodup)
    (hx : x ∈ l) (hall : ∀ y ∈ l, y = x) : l = [x] := by
  obtain ⟨a, t, rfl⟩ : ∃ a t, l = a :: t := by
    cases l with
    | nil => cases hx
    | cons a t => exact ⟨a, t, rfl⟩
  obtain ⟨hna, hnt⟩ := List.nodup_cons.mp hn
  obtain rfl : a = x := hall a (List.mem_cons_self a t)
  cases t with
  | nil => rfl
  | cons b u =>
    obtain rfl : b = a := hall b (by simp)
    exact absurd (List.mem_cons_self b u) hna

theorem numeric_mode_eq_some {floats : List ℚ} {m : ℚ} (hm : m ∈ floats)
    (hmax : ∀ v ∈ floats, v ≠ m → floats.count v < floats.count m) :
    numeric_mode floats = some m := by
  have hcm : floats.count m = max_freq floats := by
    obtain ⟨w, hw, hcw⟩ := max_freq_mem (List.ne_nil_of_mem hm)
    rcases eq_or_ne w m with rfl | hwm
    · exact hcw
    · have h1 := hmax w hw hwm
      have h2 := count_le_max_freq hm
      omega
  have hfilter : (ordered_tally floats).filter (fun p => p.2 = max_freq floats)
      = [(m, floats.count m)] := by
    apply nodup_all_eq_singleton ((nodup_ordered_tally floats).filter _)
    · exact List.mem_filter.mpr
        ⟨List.mem_map.mpr ⟨m, (mem_firstSeen m floats).mpr hm, rfl⟩, by simpa using hcm⟩
    · intro y hy
      obtain ⟨hy1, hy2⟩ := List.mem_filter.mp hy
      obtain ⟨v, hv, rfl⟩ := List.mem_map.mp hy1
      simp only [decide_eq_true_eq] at hy2
      have hvmem : v ∈ floats := (mem_firstSeen v floats).mp hv
      rcases eq_or_ne v m with rfl | hvm
      · rfl
      · have h3 := hmax v hvmem hvm
        omega
  simp only [numeric_mode]
  rw [hfilter]

theorem numeric_mode_eq_none {floats : List ℚ} {v w : ℚ} (hv : v ∈ floats) (hw : w ∈ floats)
    (hvw : v ≠ w) (hcnt : floats.count v = floats.count w)
    (hmax : ∀ u ∈ floats, floats.count u ≤ floats.count v) :
    numeric_mode floats = none := by
  have hcv : floats.count v = max_freq floats := by
    obtain ⟨u, hu, hcu⟩ := max_freq_mem (List.ne_nil_of_mem hv)
    have h1 := hmax u hu
    have h2 := count_le_max_freq hv
    omega
  have hvmem : (v, floats.count v) ∈
      (ordered_tally floats).filter (fun p => p.2 = max_freq floats) :=
    List.mem_filter.mpr
      ⟨List.mem_map.mpr ⟨v, (mem_firstSeen v floats).mpr hv, rfl⟩, by simpa using hcv⟩
  have hwmem : (w, floats.count w) ∈
      (ordered_tally floats).filter (fun p => p.2 = max_freq floats) :=
    List.mem_filter.mpr
      ⟨List.mem_map.mpr ⟨w, (mem_firstSeen w floats).mpr hw, rfl⟩,
       by simp only [decide_eq_true_eq]; omega⟩
  simp only [numeric_mode]
  rcases hfl : (ordered_tally floats).filter (fun p => p.2 = max_freq floats)
    with _ | ⟨m0, rest⟩
  · rw [hfl] at hvmem
    cases hvmem
  · rcases rest with _ | ⟨m1, rest'⟩
    · rw [hfl] at hvmem hwmem
      have h1 : (v, floats.count v) = m0 := by simpa using hvmem
      have h2 : (w, floats.count w) = m0 := by simpa using hwmem
      exact absurd (congrArg Prod.fst (h1.trans h2.symm)) hvw
    · rw [hfl]

/-! ### Projection lemmas for the statistics records -/

theorem numeric_stats_count_eq (values : List String) :
    (numeric_stats values).count
      = values.length - values.countP (fun v => is_missing_str v) := by
  simp only [numeric_stats]
  split <;> rfl

theorem numeric_stats_missing_eq (values : List String) :
    (numeric_stats values).missing = values.countP (fun v => is_missing_str v) := by
  simp only [numeric_stats]
  split <;> rfl

theorem numeric_stats_missing_pct_eq (values : List String) :
    (numeric_stats values).missing_pct
      = missing_pct_of (values.countP (fun v => is_missing_str v)) values.length := by
  simp only [numeric_stats]
  split <;> rfl

theorem text_stats_count_eq (values : List String) :
    (text_stats values).count
      = values.length - values.countP (fun v => is_missing_str v) := rfl

theorem text_stats_missing_eq (values : List String) :
    (text_stats values).missing = values.countP (fun v => is_missing_str v) := rfl

theorem text_stats_missing_pct_eq (values : List String) :
    (text_stats values).missing_pct
      = missing_pct_of (values.countP (fun v => is_missing_str v)) values.length := rfl

theorem text_stats_top_eq (values : List String) :
    (text_stats values).top
      = ((ordered_tally (present_values values)).insertionSort
          (fun a b => b.2 ≤ a.2)).take 5 := rfl

theorem numeric_stats_mode_eq (values : List String) (h : parsed_floats values ≠ []) :
    (numeric_stats values).mode? = numeric_mode (parsed_floats values) := by
  simp only [numeric_stats]
  rw [if_neg (by simpa [List.isEmpty_iff] using h)]

theorem numeric_stats_median_eq (values : List String) (h : parsed_floats values ≠ []) :
    (numeric_stats values).median? =
      some (let sorted_floats := (parsed_floats values).insertionSort (· ≤ ·)
            let n := sorted_floats.length
            if n % 2 = 0
            then (sorted_floats.getD (n / 2 - 1) 0 + sorted_floats.getD (n / 2) 0) / 2
            else sorted_floats.getD (n / 2) 0) := by
  simp only [numeric_stats]
  rw [if_neg (by simpa [List.isEmpty_iff] using h)]

theorem numeric_stats_min_eq (values : List String) (h : parsed_floats values ≠ []) :
    (numeric_stats values).min? = (parsed_floats values).min? := by
  simp only [numeric_stats]
  rw [if_neg (by simpa [List.isEmpty_iff] using h)]

theorem numeric_stats_max_eq (values : List String) (h : parsed_floats values ≠ []) :
    (numeric_stats values).max? = (parsed_floats values).max? := by
  simp only [numeric_stats]
  rw [if_neg (by simpa [List.isEmpty_iff] using h)]

theorem numeric_stats_q1_eq (values : List String) (h : parsed_floats values ≠ []) :
    (numeric_stats values).q1? =
      (if ((parsed_floats values).insertionSort (· ≤ ·)).length ≥ 4
       then some (((parsed_floats values).insertionSort (· ≤ ·)).getD
         (((parsed_floats values).insertionSort (· ≤ ·)).length / 4) 0)
       else none) := by
  simp only [numeric_stats]
  rw [if_neg (by simpa [List.isEmpty_iff] using h)]

theorem numeric_stats_q3_eq (values : List String) (h : parsed_floats values ≠ []) :
    (numeric_stats values).q3? =
      (if ((parsed_floats values).insertionSort (· ≤ ·)).length ≥ 4
       then some (((parsed_floats values).insertionSort (· ≤ ·)).getD
         (3 * ((parsed_floats values).insertionSort (· ≤ ·)).length / 4) 0)
       else none) := by
  simp only [numeric_stats]
  rw [if_neg (by simpa [List.isEmpty_iff] using h)]

theorem countP_add_countP_not {α : Type} (p : α → Bool) (l : List α) :
    l.countP p + l.countP (fun a => ¬ p a) = l.length := by
  induction l with
  | nil => simp
  | cons a t ih => by_cases h : p a <;> simp [List.countP_cons, h, ← ih] <;> omega

theorem length_present_values (values : List String) :
    (present_values values).length
      = values.length - values.countP (fun v => is_missing_str v) := by
  have h1 : (present_values values).length
      = values.countP (fun v => ¬ is_missing_str v) := by
    rw [present_values, List.countP_eq_length_filter]
  have h2 := countP_add_countP_not (fun v => is_missing_str v) values
  simp only [h1]
  omega

/-- Characterization of `infer_type values = number`: some present value
exists and all present values parse. -/
theorem infer_type_eq_number_iff (values : List String) :
    infer_type values = ColType.number ↔
      present_values values ≠ [] ∧
        ∀ v ∈ present_values values, (try_float v).isSome = true := by
  simp only [infer_type]
  by_cases h0 : (present_values values).isEmpty
  · rw [if_pos h0]
    simp [List.isEmpty_iff.mp h0]
  · rw [if_neg h0]
    have h0' : present_values values ≠ [] := by simpa [List.isEmpty_iff] using h0
    by_cases hall : (present_values values).all (fun v => (try_float v).isSome)
    · rw [if_pos hall]
      simp only [List.all_eq_true] at hall
      exact iff_of_true rfl ⟨h0', hall⟩
    · rw [if_neg hall]
      simp only [List.all_eq_true] at hall
      exact iff_of_false (by simp) (fun hc => hall hc.2)

/-! ## The claims -/

/-- C4: `is_missing` returns true iff the value is the absence-marker
`none` or, after stripping leading/trailing whitespace and
lower-casing, it equals the empty string or one of the tokens
`na`, `n/a`, `null`, `none`, `nan`; for every other string it returns
false. -/
theorem is_missing_iff (value : Option String) :
    is_missing value = true ↔
      value = none ∨ ∃ s, value = some s ∧
        (stripLower s = "" ∨ stripLower s ∈ ["na", "n/a", "null", "none", "nan"]) := by
  cases value with
  | none => simp [is_missing]
  | some s =>
    by_cases h1 : stripLower s = ""
    · simp [is_missing, h1]
    · by_cases h2 : stripLower s ∈ ["na", "n/a", "null", "none", "nan"]
      · simp [is_missing, h1, h2]
        simpa using h2
      · simp [is_missing, h1, h2]
        simpa using h2

/-- C5: `infer_type` returns text when no present value exists;
otherwise it returns number iff every present value parses as a float,
and a single unparseable present value forces text. -/
theorem infer_type_spec (values : List String) :
    (present_values values = [] → infer_type values = ColType.text)
    ∧ (present_values values ≠ [] →
        (infer_type values = ColType.number ↔
          ∀ v ∈ present_values values, (try_float v).isSome = true))
    ∧ ((∃ v ∈ present_values values, try_float v = none) →
        infer_type values = ColType.text) := by
  refine ⟨fun h => ?_, fun h => ?_, fun hex => ?_⟩
  · simp [infer_type, h]
  · rw [infer_type_eq_number_iff]
    exact ⟨fun hn => hn.2, fun hf => ⟨h, hf⟩⟩
  · rcases hex with ⟨v, hv, hvn⟩
    cases hct : infer_type values with
    | text => rfl
    | number =>
      obtain ⟨-, hall⟩ := (infer_type_eq_number_iff values).mp hct
      have hx := hall v hv
      rw [hvn] at hx
      simp at hx

/-- Witness for C5 at a concrete input: `["1", "x"]` has the
unparseable present value `"x"`, so the column is text. -/
theorem infer_type_spec_witness : infer_type ["1", "x"] = ColType.text :=
  (infer_type_spec ["1", "x"]).2.2 ⟨"x", by decide, by decide⟩

/-- C2: on a column already classified as number, the reported count is
the number of present values that parse as floats, and the reported
missing is the total minus that number. -/
theorem numeric_count_missing_of_number (values : List String)
    (h : infer_type values = ColType.number) :
    (numeric_stats values).count = (parsed_floats values).length
    ∧ (numeric_stats values).missing = values.length - (parsed_floats values).length := by
  obtain ⟨hne, hall⟩ := (infer_type_eq_number_iff values).mp h
  have hlen : (parsed_floats values).length = (present_values values).length :=
    length_filterMap_of_all_some hall
  have hpres := length_present_values values
  have hcle := List.countP_le_length (p := fun v => is_missing_str v) (l := values)
  rw [numeric_stats_count_eq, numeric_stats_missing_eq, hlen, hpres]
  omega

/-- Witness for C2 at a concrete input: `["1", "2", ""]` is a numeric
column with two parsed values and one missing cell. -/
theorem numeric_count_missing_of_number_witness :
    (numeric_stats ["1", "2", ""]).count = (parsed_floats ["1", "2", ""]).length
    ∧ (numeric_stats ["1", "2", ""]).missing
        = (["1", "2", ""] : List String).length - (parsed_floats ["1", "2", ""]).length :=
  numeric_count_missing_of_number ["1", "2", ""] (by decide)

theorem min?_spec_rat {l : List ℚ} {a : ℚ} (h : l.min? = some a) :
    a ∈ l ∧ ∀ b ∈ l, a ≤ b := by
  haveI anti : Std.Antisymm (fun x y : ℚ => x ≤ y) := ⟨fun h1 h2 => le_antisymm h1 h2⟩
  exact (List.min?_eq_some_iff (fun x => le_refl x) (fun a b => min_choice a b)
    (fun a b c => le_min_iff)).mp h

theorem max?_spec_rat {l : List ℚ} {a : ℚ} (h : l.max? = some a) :
    a ∈ l ∧ ∀ b ∈ l, b ≤ a := by
  haveI anti : Std.Antisymm (fun x y : ℚ => x ≤ y) := ⟨fun h1 h2 => le_antisymm h1 h2⟩
  exact (List.max?_eq_some_iff (fun x => le_refl x) (fun a b => max_choice a b)
    (fun a b c => max_le_iff)).mp h

/-- C7: for a numeric column with at least one parsed value, the median
is the middle element of the ascending-sorted parsed values when their
number is odd (0-indexed position n/2), and the average of the two
middle elements when it is even; `["1","2","3","4"]` gives 5/2 and
`["1","2","3"]` gives 2. -/
theorem numeric_median_spec (values : List String)
    (h : parsed_floats values ≠ []) :
    (∃ sorted : List ℚ, sorted.Perm (parsed_floats values) ∧ sorted.Sorted (· ≤ ·) ∧
      (numeric_stats values).median? = some (if sorted.length % 2 = 0
        then (sorted.getD (sorted.length / 2 - 1) 0 + sorted.getD (sorted.length / 2) 0) / 2
        else sorted.getD (sorted.length / 2) 0))
    ∧ (numeric_stats ["1", "2", "3", "4"]).median? = some (5 / 2)
    ∧ (numeric_stats ["1", "2", "3"]).median? = some 2 := by
  refine ⟨⟨(parsed_floats values).insertionSort (· ≤ ·),
    List.perm_insertionSort _ _, List.sorted_insertionSort _ _, ?_⟩, ?_, ?_⟩
  · rw [numeric_stats_median_eq values h]
  · rw [numeric_stats_median_eq ["1", "2", "3", "4"] (by decide)]
    have h4 : parsed_floats ["1", "2", "3", "4"] = [1, 2, 3, 4] := by decide
    have hs : ([1, 2, 3, 4] : List ℚ).insertionSort (· ≤ ·) = [1, 2, 3, 4] := by decide
    have g1 : ([1, 2, 3, 4] : List ℚ).getD 1 0 = 2 := by decide
    have g2 : ([1, 2, 3, 4] : List ℚ).getD 2 0 = 3 := by decide
    simp only [h4, hs, List.length_cons, List.length_nil, g1, g2]
    norm_num
  · rw [numeric_stats_median_eq ["1", "2", "3"] (by decide)]
    have h3 : parsed_floats ["1", "2", "3"] = [1, 2, 3] := by decide
    have hs : ([1, 2, 3] : List ℚ).insertionSort (· ≤ ·) = [1, 2, 3] := by decide
    have g1 : ([1, 2, 3] : List ℚ).getD 1 0 = 2 := by decide
    simp only [h3, hs, List.length_cons, List.length_nil, g1]
    norm_num

/-- Witness for C7 at a concrete input: the even-length column
`["1","2","3","4"]` has median 5/2. -/
theorem numeric_median_spec_witness :
    (numeric_stats ["1", "2", "3", "4"]).median? = some (5 / 2) :=
  (numeric_median_spec ["1", "2", "3", "4"] (by decide)).2.1

/-- C8: for a numeric column with at least one parsed value, the mode
is the value of strictly highest frequency when it is unique, and
absent when two or more distinct values tie for the highest frequency;
`["1","1","2","2","3"]` gives no mode and `["1","1","2"]` gives 1. -/
theorem numeric_mode_spec (values : List String) :
    (∀ m ∈ parsed_floats values,
      (∀ v ∈ parsed_floats values, v ≠ m →
        (parsed_floats values).count v < (parsed_floats values).count m) →
      (numeric_stats values).mode? = some m)
    ∧ (∀ v w, v ∈ parsed_floats values → w ∈ parsed_floats values → v ≠ w →
        (parsed_floats values).count v = (parsed_floats values).count w →
        (∀ u ∈ parsed_floats values,
          (parsed_floats values).count u ≤ (parsed_floats values).count v) →
        (numeric_stats values).mode? = none)
    ∧ (numeric_stats ["1", "1", "2", "2", "3"]).mode? = none
    ∧ (numeric_stats ["1", "1", "2"]).mode? = some 1 := by
  refine ⟨fun m hm hmax => ?_, fun v w hv hw hvw hcnt hmax => ?_, ?_, ?_⟩
  · rw [numeric_stats_mode_eq values (List.ne_nil_of_mem hm)]
    exact numeric_mode_eq_some hm hmax
  · rw [numeric_stats_mode_eq values (List.ne_nil_of_mem hv)]
    exact numeric_mode_eq_none hv hw hvw hcnt hmax
  · rw [numeric_stats_mode_eq _ (by decide)]
    decide
  · rw [numeric_stats_mode_eq _ (by decide)]
    decide

/-- Witness for C8 at a concrete input: in `["1","1","2"]` the value 1
is the unique most frequent value, so it is the mode. -/
theorem numeric_mode_spec_witness :
    (numeric_stats ["1", "1", "2"]).mode? = some 1 :=
  (numeric_mode_spec ["1", "1", "2"]).1 1 (by decide) (by decide)

/-- C10: for a numeric column with at least four parsed values, the
reported statistics are ordered: min ≤ q1 ≤ median ≤ q3 ≤ max. -/
theorem numeric_order_spec (values : List String)
    (h : 4 ≤ (parsed_floats values).length) :
    (numeric_stats values).min?.isSome ∧ (numeric_stats values).q1?.isSome
    ∧ (numeric_stats values).median?.isSome ∧ (numeric_stats values).q3?.isSome
    ∧ (numeric_stats values).max?.isSome
    ∧ (numeric_stats values).min?.getD 0 ≤ (numeric_stats values).q1?.getD 0
    ∧ (numeric_stats values).q1?.getD 0 ≤ (numeric_stats values).median?.getD 0
    ∧ (numeric_stats values).median?.getD 0 ≤ (numeric_stats values).q3?.getD 0
    ∧ (numeric_stats values).q3?.getD 0 ≤ (numeric_stats values).max?.getD 0 := by
  have hne : parsed_floats values ≠ [] := by
    intro h0
    rw [h0] at h
    simp at h
  have hperm := List.perm_insertionSort (fun a b : ℚ => a ≤ b) (parsed_floats values)
  have hsorted := List.sorted_insertionSort (fun a b : ℚ => a ≤ b) (parsed_floats values)
  set sorted := (parsed_floats values).insertionSort (· ≤ ·) with hsdef
  have hlen : sorted.length = (parsed_floats values).length := hperm.length_eq
  have hn4 : 4 ≤ sorted.length := by omega
  have key : ∀ i j (hi : i < sorted.length) (hj : j < sorted.length), i ≤ j →
      sorted[i] ≤ sorted[j] := by
    intro i j hi hj hij
    have := hsorted.rel_get_of_le (a := ⟨i, hi⟩) (b := ⟨j, hj⟩) hij
    simpa using this
  obtain ⟨mn, hmn⟩ : ∃ mn, (parsed_floats values).min? = some mn := by
    cases hx : (parsed_floats values).min? with
    | none => exact absurd (List.min?_eq_none_iff.mp hx) hne
    | some mn => exact ⟨mn, rfl⟩
  obtain ⟨mx, hmx⟩ : ∃ mx, (parsed_floats values).max? = some mx := by
    cases hx : (parsed_floats values).max? with
    | none => exact absurd (List.max?_eq_none_iff.mp hx) hne
    | some mx => exact ⟨mx, rfl⟩
  obtain ⟨-, hmn_le⟩ := min?_spec_rat hmn
  obtain ⟨-, hle_mx⟩ := max?_spec_rat hmx
  have hmem_sorted : ∀ i (hi : i < sorted.length), sorted[i] ∈ parsed_floats values := by
    intro i hi
    exact hperm.mem_iff.mp (List.getElem_mem hi)
  have hq1b : sorted.length / 4 < sorted.length := by omega
  have hq3b : 3 * sorted.length / 4 < sorted.length := by omega
  have hmb1 : sorted.length / 2 - 1 < sorted.length := by omega
  have hmb2 : sorted.length / 2 < sorted.length := by omega
  rw [numeric_stats_min_eq values hne, numeric_stats_max_eq values hne,
    numeric_stats_median_eq values hne, numeric_stats_q1_eq values hne,
    numeric_stats_q3_eq values hne, hmn, hmx]
  rw [← hsdef, if_pos hn4, if_pos hn4]
  refine ⟨rfl, rfl, rfl, rfl, rfl, ?_, ?_, ?_, ?_⟩
  · simp only [Option.getD_some, List.getD_eq_getElem _ _ hq1b]
    exact hmn_le _ (hmem_sorted _ hq1b)
  · simp only [Option.getD_some, List.getD_eq_getElem _ _ hq1b,
      List.getD_eq_getElem _ _ hmb1, List.getD_eq_getElem _ _ hmb2]
    by_cases hpar : sorted.length % 2 = 0
    · rw [if_pos hpar]
      have h1 : sorted[sorted.length / 4] ≤ sorted[sorted.length / 2 - 1] :=
        key _ _ hq1b hmb1 (by omega)
      have h2 : sorted[sorted.length / 4] ≤ sorted[sorted.length / 2] :=
        key _ _ hq1b hmb2 (by omega)
      linarith
    · rw [if_neg hpar]
      exact key _ _ hq1b hmb2 (by omega)
  · simp only [Option.getD_some, List.getD_eq_getElem _ _ hq3b,
      List.getD_eq_getElem _ _ hmb1, List.getD_eq_getElem _ _ hmb2]
    by_cases hpar : sorted.length % 2 = 0
    · rw [if_pos hpar]
      have h1 : sorted[sorted.length / 2 - 1] ≤ sorted[3 * sorted.length / 4] :=
        key _ _ hmb1 hq3b (by omega)
      have h2 : sorted[sorted.length / 2] ≤ sorted[3 * sorted.length / 4] :=
        key _ _ hmb2 hq3b (by omega)
      linarith
    · rw [if_neg hpar]
      exact key _ _ hmb2 hq3b (by omega)
  · simp only [Option.getD_some, List.getD_eq_getElem _ _ hq3b]
    exact hle_mx _ (hmem_sorted _ hq3b)

/-- Witness for C10 at a concrete input: `["1","2","3","4"]` has four
parsed values, whose min is at most its q1. -/
theorem numeric_order_spec_witness :
    (numeric_stats ["1", "2", "3", "4"]).min?.getD 0
      ≤ (numeric_stats ["1", "2", "3", "4"]).q1?.getD 0 :=
  (numeric_order_spec ["1", "2", "3", "4"] (by decide)).2.2.2.2.2.1

theorem column_stats_fields (values : List String) :
    ((if infer_type values = ColType.number then numeric_stats values
      else text_stats values).count)
      + ((if infer_type values = ColType.number then numeric_stats values
          else text_stats values).missing) = values.length
    ∧ (if infer_type values = ColType.number then numeric_stats values
        else text_stats values).missing_pct
        = missing_pct_of ((if infer_type values = ColType.number then numeric_stats values
            else text_stats values).missing) values.length := by
  have hc := List.countP_le_length (p := fun v => is_missing_str v) (l := values)
  by_cases hty : infer_type values = ColType.number
  · rw [if_pos hty, numeric_stats_count_eq, numeric_stats_missing_eq,
      numeric_stats_missing_pct_eq]
    exact ⟨by omega, rfl⟩
  · rw [if_neg hty, text_stats_count_eq, text_stats_missing_eq, text_stats_missing_pct_eq]
    exact ⟨by omega, rfl⟩

/-- C6: for every column of every profiled dataset, regardless of
inferred type, count + missing equals the number of rows, and
missing_pct is round(missing/total*100, 1) (0 when the total is 0). -/
theorem profile_count_missing_pct (rows : List (List (String × String)))
    (i : Nat) (h : i < (profile_rows rows).columns.length) :
    ((profile_rows rows).columns.get ⟨i, h⟩).count
        + ((profile_rows rows).columns.get ⟨i, h⟩).missing = (profile_rows rows).n_rows
    ∧ ((profile_rows rows).columns.get ⟨i, h⟩).missing_pct
        = (if 0 < (profile_rows rows).n_rows
           then round1 ((((profile_rows rows).columns.get ⟨i, h⟩).missing : ℚ)
             / ((profile_rows rows).n_rows : ℚ) * 100)
           else 0) := by
  cases rows with
  | nil => simp [profile_rows] at h
  | cons first rest =>
    have h' : i < (first.map Prod.fst).length := by
      simpa [profile_rows] using h
    have hg : (profile_rows (first :: rest)).columns.get ⟨i, h⟩
        = (fun col_name =>
            let values := (first :: rest).map (fun row => rowGet row col_name)
            let col_type := infer_type values
            let stats := if col_type = ColType.number then numeric_stats values
              else text_stats values
            let col_profile := { stats with name := col_name, type := col_type }
            { col_profile with
                quality_issues :=
                  detect_quality_issues col_profile (first :: rest).length })
          ((first.map Prod.fst).get ⟨i, h'⟩) := by
      simp only [profile_rows, List.get_eq_getElem, List.getElem_map]
    rw [hg]
    have hn : (profile_rows (first :: rest)).n_rows = (first :: rest).length := rfl
    rw [hn]
    set col := (first.map Prod.fst).get ⟨i, h'⟩ with hcoldef
    set values := (first :: rest).map (fun row => rowGet row col) with hvdef
    have key := column_stats_fields values
    have hlen : values.length = (first :: rest).length := List.length_map _ _
    simp only []
    constructor
    · rw [← hlen]
      exact key.1
    · rw [key.2, missing_pct_of, hlen]

/-- Witness for C6 at a concrete input: the one-row dataset
`[{a: "1"}]` has a single column with count 1 and missing 0. -/
theorem profile_count_missing_pct_witness :
    ((profile_rows [[("a", "1")]]).columns.get ⟨0, by decide⟩).count
      + ((profile_rows [[("a", "1")]]).columns.get ⟨0, by decide⟩).missing
      = (profile_rows [[("a", "1")]]).n_rows :=
  (profile_count_missing_pct [[("a", "1")]] 0 (by decide)).1

theorem outlier_issues_mem (p : ColProfile) {i : Issue} (h : i ∈ outlier_issues p) :
    i.level = Level.info ∧ i.msg.isMissingData = false := by
  unfold outlier_issues at h
  split at h
  · simp only [] at h
    split at h
    · simp only [List.mem_singleton] at h
      subst h
      exact ⟨rfl, rfl⟩
    · simp at h
  · simp at h

theorem variability_issues_mem (p : ColProfile) {i : Issue} (h : i ∈ variability_issues p) :
    i.level = Level.info ∧ i.msg.isMissingData = false := by
  unfold variability_issues at h
  split at h
  · split at h
    · simp only [List.mem_singleton] at h
      subst h
      exact ⟨rfl, rfl⟩
    · simp at h
  · simp at h

theorem numeric_issues_mem (p : ColProfile) {i : Issue} (h : i ∈ numeric_issues p) :
    i.level = Level.info ∧ i.msg.isMissingData = false := by
  rcases List.mem_append.mp h with h | h
  · exact outlier_issues_mem p h
  · exact variability_issues_mem p h

theorem text_issues_mem (p : ColProfile) (n_rows : Nat) {i : Issue}
    (h : i ∈ text_issues p n_rows) :
    i.level = Level.info ∧ i.msg.isMissingData = false := by
  unfold text_issues at h
  split at h
  · simp only [] at h
    split at h
    · simp only [List.mem_singleton] at h
      subst h
      exact ⟨rfl, rfl⟩
    · simp at h
  · simp at h

theorem outlier_issues_length (p : ColProfile) : (outlier_issues p).length ≤ 1 := by
  unfold outlier_issues
  split
  · simp only []
    split <;> simp
  · simp

theorem variability_issues_length (p : ColProfile) : (variability_issues p).length ≤ 1 := by
  unfold variability_issues
  split
  · split <;> simp
  · simp

theorem numeric_issues_length (p : ColProfile) : (numeric_issues p).length ≤ 2 := by
  have h1 := outlier_issues_length p
  have h2 := variability_issues_length p
  unfold numeric_issues
  rw [List.length_append]
  omega

theorem text_issues_length (p : ColProfile) (n_rows : Nat) :
    (text_issues p n_rows).length ≤ 1 := by
  unfold text_issues
  split
  · simp only []
    split <;> simp
  · simp

/-- The only issues whose message reports missing data are the ones
emitted by the missing-data check itself: filtering the full issue list
for missing-data messages leaves exactly the missing-data block. -/
theorem detect_filter_missing (p : ColProfile) (n_rows : Nat) :
    (detect_quality_issues p n_rows).filter (fun i => i.msg.isMissingData)
      = (if p.missing_pct > 50 then [⟨Level.warning, IssueMsg.highMissing p.missing_pct⟩]
         else if p.missing_pct > 20 then [⟨Level.info, IssueMsg.moderateMissing p.missing_pct⟩]
         else []) := by
  unfold detect_quality_issues
  rw [List.filter_append, List.filter_append, List.filter_append, List.filter_append]
  have h2 : List.filter (fun i : Issue => i.msg.isMissingData)
      (if n_rows > 100 ∧ p.unique < 5 ∧ p.type ≠ ColType.text then
        ([⟨Level.info, IssueMsg.lowCardinality p.unique n_rows⟩] : List Issue) else []) = [] := by
    split <;> simp [IssueMsg.isMissingData]
  have h3 : List.filter (fun i : Issue => i.msg.isMissingData)
      (if p.unique = p.count ∧ p.count > 10 then
        ([⟨Level.info, IssueMsg.allUnique⟩] : List Issue) else []) = [] := by
    split <;> simp [IssueMsg.isMissingData]
  have h4 : List.filter (fun i : Issue => i.msg.isMissingData)
      (if p.type = ColType.number ∧ p.variance?.isSome then numeric_issues p else []) = [] := by
    split
    · exact List.filter_eq_nil_iff.mpr (fun i hi => by simp [(numeric_issues_mem p hi).2])
    · rfl
  have h5 : List.filter (fun i : Issue => i.msg.isMissingData)
      (if p.type = ColType.text then text_issues p n_rows else []) = [] := by
    split
    · exact List.filter_eq_nil_iff.mpr (fun i hi => by simp [(text_issues_mem p n_rows hi).2])
    · rfl
  rw [h2, h3, h4, h5]
  simp only [List.append_nil]
  split_ifs <;> simp [IssueMsg.isMissingData]

/-- C1 (amended): the Quality Inspector emits exactly one missing-data
issue when missing_pct > 20 — level warning with message "High missing
data: X% of values are missing" when missing_pct > 50, otherwise level
info with message "Moderate missing data: X% of values are missing"
(the two levels use different wording, not the same) — and no
missing-data issue when missing_pct ≤ 20; a column never receives two
missing-data issues. -/
theorem missing_issue_amended (p : ColProfile) (n_rows : Nat) :
    (p.missing_pct > 50 →
      (detect_quality_issues p n_rows).filter (fun i => i.msg.isMissingData)
        = [⟨Level.warning, IssueMsg.highMissing p.missing_pct⟩]
      ∧ render (IssueMsg.highMissing p.missing_pct)
          = "High missing data: " ++ fmt1 p.missing_pct ++ "% of values are missing")
    ∧ (p.missing_pct > 20 → p.missing_pct ≤ 50 →
      (detect_quality_issues p n_rows).filter (fun i => i.msg.isMissingData)
        = [⟨Level.info, IssueMsg.moderateMissing p.missing_pct⟩]
      ∧ render (IssueMsg.moderateMissing p.missing_pct)
          = "Moderate missing data: " ++ fmt1 p.missing_pct ++ "% of values are missing")
    ∧ (p.missing_pct ≤ 20 →
      (detect_quality_issues p n_rows).filter (fun i => i.msg.isMissingData) = []) := by
  refine ⟨fun h50 => ⟨?_, rfl⟩, fun h20 h50 => ⟨?_, rfl⟩, fun h20 => ?_⟩
  · rw [detect_filter_missing, if_pos h50]
  · rw [detect_filter_missing, if_neg (not_lt.mpr h50), if_pos h20]
  · have hle : p.missing_pct ≤ 50 := le_trans h20 (by norm_num)
    rw [detect_filter_missing, if_neg (not_lt.mpr hle), if_neg (not_lt.mpr h20)]

/-- Witness for the amended C1 at a concrete input: a column profile
with missing_pct = 60 yields exactly one missing-data issue, level
warning. -/
theorem missing_issue_amended_witness :
    (detect_quality_issues
        { type := ColType.text, count := 5, missing := 3, missing_pct := 60, unique := 3 }
        5).filter (fun i => i.msg.isMissingData)
      = [⟨Level.warning, IssueMsg.highMissing 60⟩]
    ∧ render (IssueMsg.highMissing 60)
        = "High missing data: " ++ fmt1 60 ++ "% of values are missing" :=
  (missing_issue_amended
    { type := ColType.text, count := 5, missing := 3, missing_pct := 60, unique := 3 }
    5).1 (by decide)

/-- C1 counterexample: at missing_pct = 30 the single missing-data
issue has level info and message "Moderate missing data: 30.0% of
values are missing", which is not the wording "High missing data:
30.0% of values are missing" the claim asserts for both levels. -/
theorem missing_issue_wording_counterexample :
    (detect_quality_issues
        { type := ColType.text, count := 5, missing := 3, missing_pct := 30, unique := 3 }
        10).map (fun i => (i.level, render i.msg))
      = [(Level.info, "Moderate missing data: 30.0% of values are missing")]
    ∧ "Moderate missing data: 30.0% of values are missing"
      ≠ "High missing data: 30.0% of values are missing" := by
  have hdet : detect_quality_issues
      { type := ColType.text, count := 5, missing := 3, missing_pct := 30, unique := 3 } 10
      = [⟨Level.info, IssueMsg.moderateMissing 30⟩] := by decide
  have hround : round_half_even (10 * 30 : ℚ) = 300 := by
    norm_num [round_half_even]
  have hfmt : fmt1 (30 : ℚ) = "30.0" := by
    simp only [fmt1, hround]
    decide
  constructor
  · rw [hdet]
    simp only [List.map_cons, List.map_nil]
    rw [show render (IssueMsg.moderateMissing 30)
        = "Moderate missing data: " ++ fmt1 30 ++ "% of values are missing" from rfl, hfmt]
    rfl
  · decide

/-- C9: for every column profile and row count, the Quality Inspector
returns at most 5 issues, every issue level is warning or info, and at
most one issue (the high-missing-data one) has level warning. -/
theorem detect_issue_invariants (p : ColProfile) (n_rows : Nat) :
    (detect_quality_issues p n_rows).length ≤ 5
    ∧ (∀ i ∈ detect_quality_issues p n_rows,
        i.level = Level.warning ∨ i.level = Level.info)
    ∧ (detect_quality_issues p n_rows).countP
        (fun i => decide (i.level = Level.warning)) ≤ 1 := by
  have hni := numeric_issues_length p
  have hti := text_issues_length p n_rows
  refine ⟨?_, ?_, ?_⟩
  · cases htype : p.type
    · simp only [detect_quality_issues, htype, List.length_append]
      split_ifs <;>
        simp only [List.length_cons, List.length_nil] <;>
        omega
    · simp only [detect_quality_issues, htype, List.length_append]
      split_ifs <;>
        simp only [List.length_cons, List.length_nil] <;>
        omega
  · intro i _
    cases hl : i.level
    · exact Or.inl rfl
    · exact Or.inr rfl
  · unfold detect_quality_issues
    rw [List.countP_append, List.countP_append, List.countP_append, List.countP_append]
    have c1 : List.countP (fun i : Issue => decide (i.level = Level.warning))
        (if p.missing_pct > 50 then
          ([⟨Level.warning, IssueMsg.highMissing p.missing_pct⟩] : List Issue)
        else if p.missing_pct > 20 then
          [⟨Level.info, IssueMsg.moderateMissing p.missing_pct⟩]
        else []) ≤ 1 := by
      split_ifs <;> simp [List.countP_cons, List.countP_nil]
    have c2 : List.countP (fun i : Issue => decide (i.level = Level.warning))
        (if n_rows > 100 ∧ p.unique < 5 ∧ p.type ≠ ColType.text then
          ([⟨Level.info, IssueMsg.lowCardinality p.unique n_rows⟩] : List Issue) else [])
        = 0 := by
      split <;> rfl
    have c3 : List.countP (fun i : Issue => decide (i.level = Level.warning))
        (if p.unique = p.count ∧ p.count > 10 then
          ([⟨Level.info, IssueMsg.allUnique⟩] : List Issue) else []) = 0 := by
      split <;> rfl
    have c4 : List.countP (fun i : Issue => decide (i.level = Level.warning))
        (if p.type = ColType.number ∧ p.variance?.isSome then numeric_issues p else [])
        = 0 := by
      split
      · exact List.countP_eq_zero.mpr (fun i hi => by simp [(numeric_issues_mem p hi).1])
      · rfl
    have c5 : List.countP (fun i : Issue => decide (i.level = Level.warning))
        (if p.type = ColType.text then text_issues p n_rows else []) = 0 := by
      split
      · exact List.countP_eq_zero.mpr (fun i hi => by simp [(text_issues_mem p n_rows hi).1])
      · rfl
    omega

/-- Witness for C9 at a concrete input: a profile with missing_pct = 60
has at most one warning-level issue. -/
theorem detect_issue_invariants_witness :
    (detect_quality_issues
        { type := ColType.text, count := 5, missing := 3, missing_pct := 60, unique := 3 }
        5).countP (fun i => decide (i.level = Level.warning)) ≤ 1 :=
  (detect_issue_invariants
    { type := ColType.text, count := 5, missing := 3, missing_pct := 60, unique := 3 } 5).2.2

theorem pair_sublist_idxOf {α : Type} [DecidableEq α] {x y : α} {l : List α}
    (hn : l.Nodup) (h : List.Sublist [x, y] l) : l.indexOf x < l.indexOf y := by
  induction l with
  | nil => simp at h
  | cons c t ih =>
    obtain ⟨hc, hn'⟩ := List.nodup_cons.mp hn
    cases h with
    | cons _ h' =>
      have hxt : x ∈ t := h'.subset (by simp)
      have hyt : y ∈ t := h'.subset (by simp)
      have hcx : c ≠ x := fun he => hc (he ▸ hxt)
      have hcy : c ≠ y := fun he => hc (he ▸ hyt)
      rw [List.indexOf_cons_ne _ hcx, List.indexOf_cons_ne _ hcy]
      exact Nat.succ_lt_succ (ih hn' h')
    | cons₂ _ h' =>
      have hyt : y ∈ t := h'.subset (by simp)
      have hcy : x ≠ y := fun he => hc (he ▸ hyt)
      rw [List.indexOf_cons_self, List.indexOf_cons_ne _ hcy]
      exact Nat.succ_pos _

theorem mem_mem_pair_sublist {α : Type} {x y : α} {l : List α}
    (hx : x ∈ l) (hy : y ∈ l) (hxy : x ≠ y) :
    List.Sublist [x, y] l ∨ List.Sublist [y, x] l := by
  induction l with
  | nil => cases hx
  | cons c t ih =>
    rcases List.mem_cons.mp hx with rfl | hx'
    · have hy' : y ∈ t := by
        rcases List.mem_cons.mp hy with rfl | h
        · exact absurd rfl hxy
        · exact h
      exact Or.inl ((List.singleton_sublist.mpr hy').cons₂ x)
    · rcases List.mem_cons.mp hy with rfl | hy'
      · exact Or.inr ((List.singleton_sublist.mpr hx').cons₂ y)
      · rcases ih hx' hy' with h | h
        · exact Or.inl (h.cons c)
        · exact Or.inr (h.cons c)

theorem idxOf_firstSeen_lt {α : Type} [DecidableEq α] {x y : α} {l : List α}
    (h : List.Sublist [x, y] (firstSeen l)) : l.indexOf x < l.indexOf y := by
  induction l with
  | nil => simp [firstSeen] at h
  | cons v t ih =>
    rw [show firstSeen (v :: t) = v :: (firstSeen t).filter (fun w => w ≠ v) from rfl] at h
    cases h with
    | cons _ h' =>
      have hxf : x ∈ (firstSeen t).filter (fun w => w ≠ v) := h'.subset (by simp)
      have hyf : y ∈ (firstSeen t).filter (fun w => w ≠ v) := h'.subset (by simp)
      have hxv : x ≠ v := by simpa using (List.mem_filter.mp hxf).2
      have hyv : y ≠ v := by simpa using (List.mem_filter.mp hyf).2
      have h'' : List.Sublist [x, y] (firstSeen t) := h'.trans (List.filter_sublist _)
      rw [List.indexOf_cons_ne _ (Ne.symm hxv), List.indexOf_cons_ne _ (Ne.symm hyv)]
      exact Nat.succ_lt_succ (ih h'')
    | cons₂ _ h' =>
      have hyf : y ∈ (firstSeen t).filter (fun w => w ≠ x) := h'.subset (by simp)
      have hyv : y ≠ x := by simpa using (List.mem_filter.mp hyf).2
      rw [List.indexOf_cons_self, List.indexOf_cons_ne _ (Ne.symm hyv)]
      exact Nat.succ_pos _

/-- C3: the text `top` has at most 5 entries, ordered by descending
count, each entry pairing a present value with its exact frequency;
any present value left out is no more frequent than any entry kept;
entries with equal counts are ordered by the first appearance of their
value in the row sequence; and `["a","b","a","c","a","b"]` gives
top-2 = `[(a,3),(b,2)]`. -/
theorem text_top_spec (values : List String) :
    (text_stats values).top.length ≤ 5
    ∧ (text_stats values).top.Pairwise (fun a b => b.2 ≤ a.2)
    ∧ (∀ pr ∈ (text_stats values).top,
        pr.1 ∈ present_values values ∧ pr.2 = (present_values values).count pr.1)
    ∧ (∀ v ∈ present_values values,
        (v, (present_values values).count v) ∉ (text_stats values).top →
        ∀ pr ∈ (text_stats values).top, (present_values values).count v ≤ pr.2)
    ∧ (∀ a b, List.Sublist [a, b] (text_stats values).top → a.2 = b.2 →
        (present_values values).indexOf a.1 < (present_values values).indexOf b.1)
    ∧ (text_stats ["a", "b", "a", "c", "a", "b"]).top.take 2 = [("a", 3), ("b", 2)] := by
  set present := present_values values with hpres
  set tally := ordered_tally present with htally
  set r := fun x y : String × Nat => y.2 ≤ x.2 with hr
  haveI hTot : IsTotal (String × Nat) r := ⟨fun a b => le_total b.2 a.2⟩
  haveI hTrans : IsTrans (String × Nat) r := ⟨fun a b c hab hbc => le_trans hbc hab⟩
  set sortedT := tally.insertionSort r with hsorted_def
  have htop5 : (text_stats values).top = sortedT.take 5 := text_stats_top_eq values
  have hperm : List.Perm sortedT tally := List.perm_insertionSort r tally
  have hsorted : sortedT.Pairwise r := List.sorted_insertionSort r tally
  have hnd_t : tally.Nodup := nodup_ordered_tally present
  have hnd_s : sortedT.Nodup := hperm.nodup_iff.mpr hnd_t
  refine ⟨?_, ?_, ?_, ?_, ?_, ?_⟩
  · rw [htop5]
    simp [List.length_take]
  · rw [htop5]
    exact List.Pairwise.sublist (List.take_sublist 5 sortedT) hsorted
  · intro pr hpr
    rw [htop5] at hpr
    have hprs : pr ∈ sortedT := (List.take_sublist 5 sortedT).subset hpr
    have hprt : pr ∈ tally := hperm.mem_iff.mp hprs
    rw [htally, ordered_tally] at hprt
    obtain ⟨v, hv, rfl⟩ := List.mem_map.mp hprt
    exact ⟨(mem_firstSeen v present).mp hv, rfl⟩
  · intro v hv hnot pr hpr
    have hvt : (v, present.count v) ∈ tally := by
      rw [htally, ordered_tally]
      exact List.mem_map.mpr ⟨v, (mem_firstSeen v present).mpr hv, rfl⟩
    have hvs : (v, present.count v) ∈ sortedT := hperm.mem_iff.mpr hvt
    rw [htop5] at hnot hpr
    have hvdrop : (v, present.count v) ∈ sortedT.drop 5 := by
      rw [← List.take_append_drop 5 sortedT] at hvs
      rcases List.mem_append.mp hvs with h | h
      · exact absurd h hnot
      · exact h
    have hp : (sortedT.take 5 ++ sortedT.drop 5).Pairwise r := by
      rw [List.take_append_drop]
      exact hsorted
    obtain ⟨-, -, hcross⟩ := List.pairwise_append.mp hp
    exact hcross pr hpr _ hvdrop
  · intro a b hab hcnt
    rw [htop5] at hab
    have hsub : List.Sublist [a, b] sortedT := hab.trans (List.take_sublist 5 sortedT)
    have habne : a ≠ b := by
      intro he
      subst he
      have := pair_sublist_idxOf hnd_s hsub
      omega
    have hamem : a ∈ tally := hperm.mem_iff.mp (hsub.subset (by simp))
    have hbmem : b ∈ tally := hperm.mem_iff.mp (hsub.subset (by simp))
    have htt : List.Sublist [a, b] tally := by
      rcases mem_mem_pair_sublist hamem hbmem habne with h' | h'
      · exact h'
      · exfalso
        have hba : List.Sublist [b, a] sortedT :=
          List.pair_sublist_insertionSort (le_of_eq hcnt) h'
        have h1 := pair_sublist_idxOf hnd_s hsub
        have h2 := pair_sublist_idxOf hnd_s hba
        omega
    rw [htally, ordered_tally] at htt
    obtain ⟨rr, hrr_sub, hrr_eq⟩ := List.sublist_map_iff.mp htt
    rcases rr with _ | ⟨xx, _ | ⟨yy, _ | ⟨zz, rest⟩⟩⟩ <;>
      simp only [List.map_cons, List.map_nil] at hrr_eq
    · cases hrr_eq
    · cases hrr_eq
    · simp only [List.cons.injEq, and_true] at hrr_eq
      obtain ⟨ha, hb⟩ := hrr_eq
      have hlt := idxOf_firstSeen_lt hrr_sub
      rw [ha, hb]
      exact hlt
    · cases hrr_eq
  · decide

/-- Witness for C3 at a concrete input: in
`["a","b","a","c","a","b"]` the pair ("a", 3) in the top list pairs the
present value "a" with its frequency 3. -/
theorem text_top_spec_witness :
    ("a" : String) ∈ present_values ["a", "b", "a", "c", "a", "b"]
    ∧ (3 : Nat) = (present_values ["a", "b", "a", "c", "a", "b"]).count "a" :=
  (text_top_spec ["a", "b", "a", "c", "a", "b"]).2.2.1 ("a", 3) (by decide)
